import Mathlib

/-!
Verification development for the fail2ban log-monitoring tool
(`monitoring/fail2ban_monitor.py`).

The Python source is shallowly embedded: Python dicts / `Counter` /
`defaultdict` (which preserve insertion order) are modelled as
association lists in insertion order, Python `set` as a duplicate-free
list, machine-independent integers as `Nat`, float arithmetic on rates
as `ℚ`, and the `logger.error` side effect as an explicit list of
emitted messages.  The `threading.Lock` is not modelled: every store
operation is a pure function on the whole state, which is exactly the
atomicity the lock provides.
-/

namespace Fail2ban

/-- Per-jail counters: the value type of `Fail2banStats.jail_stats`,
a `defaultdict(lambda: {'bans': 0, 'unbans': 0, 'finds': 0})`. -/
structure JailStats where
  bans : Nat
  unbans : Nat
  finds : Nat
  deriving DecidableEq, Repr

/-- The default per-jail record produced by the `defaultdict` factory. -/
def JailStats.zero : JailStats := ⟨0, 0, 0⟩

/-- A parsed `datetime` value, as produced by
`datetime.datetime.strptime(timestamp, "%Y-%m-%d %H:%M:%S,%f")`. -/
structure DateTime where
  year : Nat
  month : Nat
  day : Nat
  hour : Nat
  minute : Nat
  second : Nat
  micro : Nat
  deriving DecidableEq, Repr

/-- Python `Counter`/`dict` increment `d[k] += 1`: an existing key keeps its
position (Python dicts preserve insertion order), a missing key is
appended with value 1 (`Counter` treats missing keys as 0). -/
def counterIncr (l : List (String × Nat)) (k : String) : List (String × Nat) :=
  match l with
  | [] => [(k, 1)]
  | (k', v) :: rest => if k' = k then (k', v + 1) :: rest else (k', v) :: counterIncr rest k

/-- Python `Counter` read access: a missing key reads as 0. -/
def countOf (l : List (String × Nat)) (k : String) : Nat :=
  match l with
  | [] => 0
  | (k', v) :: rest => if k' = k then v else countOf rest k

/-- Python `defaultdict` lookup-and-update `d[k] = f(d[k])`: a missing key is
first materialised with the factory default `JailStats.zero`. -/
def jailUpdate (l : List (String × JailStats)) (k : String) (f : JailStats → JailStats) :
    List (String × JailStats) :=
  match l with
  | [] => [(k, f JailStats.zero)]
  | (k', v) :: rest => if k' = k then (k', f v) :: rest else (k', v) :: jailUpdate rest k f

/-- Python `defaultdict` read access for `jail_stats`: a missing key reads as the
factory default. -/
def jailOf (l : List (String × JailStats)) (k : String) : JailStats :=
  match l with
  | [] => JailStats.zero
  | (k', v) :: rest => if k' = k then v else jailOf rest k

/-- Whether `jail_stats` holds a materialised entry for key `k`
(i.e. `k in jail_stats` in Python). -/
def jailEntry (l : List (String × JailStats)) (k : String) : Option JailStats :=
  match l with
  | [] => none
  | (k', v) :: rest => if k' = k then some v else jailEntry rest k

/-- Python `set.add` on the model of a set as a duplicate-free list:
membership-only semantics. -/
def setAdd (s : List String) (j : String) : List String :=
  if j ∈ s then s else s ++ [j]

/-- Update `ip_jail_map[ip].add(jail)` on the `defaultdict(set)`:
a missing address is materialised with the empty set. -/
def jailsAdd (l : List (String × List String)) (ip jail : String) :
    List (String × List String) :=
  match l with
  | [] => [(ip, setAdd [] jail)]
  | (k', v) :: rest =>
      if k' = ip then (k', setAdd v jail) :: rest else (k', v) :: jailsAdd rest ip jail

/-- The set of jails recorded for an address (`ip_jail_map[ip]` read as a set,
missing address reads as the empty set). -/
def jailsOf (l : List (String × List String)) (ip : String) : List String :=
  match l with
  | [] => []
  | (k', v) :: rest => if k' = ip then v else jailsOf rest ip

/-- Assignment `ban_times[ip] = dt`: plain dict assignment, existing key keeps its
position, missing key appended. -/
def timesSet (l : List (String × DateTime)) (ip : String) (dt : DateTime) :
    List (String × DateTime) :=
  match l with
  | [] => [(ip, dt)]
  | (k', v) :: rest => if k' = ip then (k', dt) :: rest else (k', v) :: timesSet rest ip dt

/-- ASCII decimal digit test (`\d` of the `re` patterns and of `_strptime`,
restricted to ASCII as in the monitored log). -/
def isDigit (c : Char) : Bool := decide ('0' ≤ c ∧ c ≤ '9')

/-- Numeric value of a run of decimal digits (most significant first). -/
def digitsVal (cs : List Char) : Nat :=
  cs.foldl (fun a c => a * 10 + (c.toNat - '0'.toNat)) 0

/-- Consume the literal character `c` from the front of the input. -/
def expectChar (c : Char) (cs : List Char) : Option (List Char) :=
  match cs with
  | [] => none
  | x :: rest => if x = c then some rest else none

/-- Consume a literal string from the front of the input. -/
def expectLit (lit : List Char) (cs : List Char) : Option (List Char) :=
  match lit, cs with
  | [], rest => some rest
  | _ :: _, [] => none
  | l :: ls, c :: rest => if c = l then expectLit ls rest else none

/-- Split off the maximal leading run of decimal digits. -/
def digitRun (cs : List Char) : List Char × List Char :=
  (cs.takeWhile isDigit, cs.dropWhile isDigit)

/-- Gregorian leap-year test, as in `datetime`'s calendar. -/
def isLeap (y : Nat) : Bool := (y % 4 = 0 && y % 100 != 0) || y % 400 = 0

/-- Days in a month of the proleptic Gregorian calendar used by
`datetime` to validate the day component. -/
def daysInMonth (y m : Nat) : Nat :=
  if m = 2 then (if isLeap y then 29 else 28)
  else if m = 4 ∨ m = 6 ∨ m = 9 ∨ m = 11 then 30
  else 31

/-- Model of `datetime.datetime.strptime(s, "%Y-%m-%d %H:%M:%S,%f")`, returning
`none` exactly when Python raises `ValueError`.  Faithful to
`_strptime` plus the `datetime` constructor checks: `%Y` is exactly four
digits and the year is at least `MINYEAR = 1`; month/day/hour/minute/second
are one or two digits within range (day validated against the calendar);
`%f` is one to six digits, right-padded with zeros to microseconds; the
whole string must be consumed. -/
def parseTimestamp (s : String) : Option DateTime :=
  let (yc, r) := digitRun s.data
  if yc.length ≠ 4 then none else
  (expectChar '-' r).bind fun r =>
  let (mc, r) := digitRun r
  if mc.length = 0 ∨ 2 < mc.length then none else
  (expectChar '-' r).bind fun r =>
  let (dc, r) := digitRun r
  if dc.length = 0 ∨ 2 < dc.length then none else
  (expectChar ' ' r).bind fun r =>
  let (hc, r) := digitRun r
  if hc.length = 0 ∨ 2 < hc.length then none else
  (expectChar ':' r).bind fun r =>
  let (mic, r) := digitRun r
  if mic.length = 0 ∨ 2 < mic.length then none else
  (expectChar ':' r).bind fun r =>
  let (sc, r) := digitRun r
  if sc.length = 0 ∨ 2 < sc.length then none else
  (expectChar ',' r).bind fun r =>
  let (fc, r) := digitRun r
  if fc.length = 0 ∨ 6 < fc.length then none else
  if r ≠ [] then none else
  let y := digitsVal yc
  let mo := digitsVal mc
  let d := digitsVal dc
  let h := digitsVal hc
  let mi := digitsVal mic
  let se := digitsVal sc
  if y = 0 then none else
  if mo = 0 ∨ 12 < mo then none else
  if d = 0 ∨ daysInMonth y mo < d then none else
  if 23 < h then none else
  if 59 < mi then none else
  if 59 < se then none else
  some ⟨y, mo, d, h, mi, se, digitsVal fc * 10 ^ (6 - fc.length)⟩

/-- Zero-padded fixed-width decimal rendering, most significant digit
first: the `%m`, `%d`, `%H` fields of `strftime`, which are always
two-digit zero-padded. -/
def padNum : Nat → Nat → List Char
  | 0, _ => []
  | w + 1, a => Nat.digitChar (a / 10 ^ w) :: padNum w (a % 10 ^ w)

/-- The year as printed by `strftime("%Y")`: the plain decimal number
with NO zero padding (year 999 prints as `999`, year 33 as `33`).  On
the year domain 1–9999 that `parseTimestamp` can produce, this equals
the four-digit padded form with its leading zeros removed. -/
def yearChars (y : Nat) : List Char :=
  (padNum 4 y).dropWhile (fun c => c == '0')

/-- Model of `dt.strftime("%Y-%m-%d %H")` — the hour-bucket key of the
`hourly_stats` histogram.  Month, day and hour are zero-padded to two
digits; the year is unpadded, so keys with years below 1000 are
shorter than the usual thirteen characters. -/
def hourKey (dt : DateTime) : String :=
  ⟨yearChars dt.year ++ '-' :: (padNum 2 dt.month ++ '-' :: (padNum 2 dt.day ++
    ' ' :: padNum 2 dt.hour))⟩

/-- The mutable state of `Fail2banStats` (`self.start_time` and the lock
are not part of the aggregate data: elapsed time is passed to the
snapshot explicitly). -/
structure Fail2banStats where
  ban_count : Nat := 0
  unban_count : Nat := 0
  find_count : Nat := 0
  banned_ips : List (String × Nat) := []
  jail_stats : List (String × JailStats) := []
  hourly_stats : List (String × Nat) := []
  ip_jail_map : List (String × List String) := []
  ban_times : List (String × DateTime) := []
  deriving DecidableEq, Repr

/-- The freshly constructed store (`Fail2banStats.__init__`). -/
def initStats : Fail2banStats := {}

/-- Model of `Fail2banStats.record_ban` (lines 62–77).  Increments `ban_count`,
`banned_ips[ip]`, `jail_stats[jail]['bans']`, adds the jail to
`ip_jail_map[ip]`; then tries to parse the timestamp: on success the
hour bucket and `ban_times[ip]` are updated, on `ValueError` a
`logger.error` message is emitted instead (returned as the second
component). -/
def record_ban (st : Fail2banStats) (timestamp jail ip : String) :
    Fail2banStats × List String :=
  let st1 : Fail2banStats :=
    { st with
      ban_count := st.ban_count + 1
      banned_ips := counterIncr st.banned_ips ip
      jail_stats := jailUpdate st.jail_stats jail (fun s => { s with bans := s.bans + 1 })
      ip_jail_map := jailsAdd st.ip_jail_map ip jail }
  match parseTimestamp timestamp with
  | some dt =>
      ({ st1 with
         hourly_stats := counterIncr st1.hourly_stats (hourKey dt)
         ban_times := timesSet st1.ban_times ip dt }, [])
  | none => (st1, ["Failed to parse timestamp: " ++ timestamp])

/-- Model of `Fail2banStats.record_unban` (lines 79–83): increments `unban_count`
and `jail_stats[jail]['unbans']` only. -/
def record_unban (st : Fail2banStats) (_timestamp jail _ip : String) :
    Fail2banStats × List String :=
  ({ st with
     unban_count := st.unban_count + 1
     jail_stats := jailUpdate st.jail_stats jail (fun s => { s with unbans := s.unbans + 1 }) },
   [])

/-- Model of `Fail2banStats.record_find` (lines 85–89): increments `find_count`
and `jail_stats[jail]['finds']` only. -/
def record_find (st : Fail2banStats) (_timestamp jail _ip : String) :
    Fail2banStats × List String :=
  ({ st with
     find_count := st.find_count + 1
     jail_stats := jailUpdate st.jail_stats jail (fun s => { s with finds := s.finds + 1 }) },
   [])

/-- Stable insertion step for descending sort by the count component:
the new element goes in front of the first element whose count is not
larger, so earlier-inserted elements win ties. -/
def insertByCount (x : String × Nat) : List (String × Nat) → List (String × Nat)
  | [] => [x]
  | y :: ys => if y.2 ≤ x.2 then x :: y :: ys else y :: insertByCount x ys

/-- Stable sort by count, descending — the behaviour of Python's stable
`sorted(..., key=lambda x: x[1], reverse=True)` and of
`Counter.most_common` (documented equivalent to
`sorted(items, key=itemgetter(1), reverse=True)`). -/
def sortByCountDesc : List (String × Nat) → List (String × Nat)
  | [] => []
  | x :: xs => insertByCount x (sortByCountDesc xs)

/-- Stable insertion step for ascending sort by the string key. -/
def insertByKey (x : String × Nat) : List (String × Nat) → List (String × Nat)
  | [] => [x]
  | y :: ys => if x.1 < y.1 then x :: y :: ys else y :: insertByKey x ys

/-- Python `sorted(d.items())`: ascending by key (keys of a dict are distinct,
so the pair comparison reduces to key comparison). -/
def sortByKeyAsc : List (String × Nat) → List (String × Nat)
  | [] => []
  | x :: xs => insertByKey x (sortByKeyAsc xs)

/-- Python `Counter.most_common(n)`: the first `n` entries of the stable
descending sort. -/
def mostCommon (n : Nat) (l : List (String × Nat)) : List (String × Nat) :=
  (sortByCountDesc l).take n

/-- The dictionary returned by `Fail2banStats.get_summary` (lines
91–122); the `runtime` display string is elided, float arithmetic is
carried out in `ℚ`. -/
structure Summary where
  total_bans : Nat
  total_unbans : Nat
  total_finds : Nat
  unique_ips : Nat
  top_banned_ips : List (String × Nat)
  top_jails : List (String × Nat)
  ban_frequency : ℚ
  detection_rate : ℚ
  hourly_distribution : List (String × Nat)
  deriving DecidableEq, Repr

/-- Model of `Fail2banStats.get_summary`, with the elapsed runtime (in seconds,
`(datetime.now() - self.start_time).total_seconds()`) passed in
explicitly. -/
def get_summary (st : Fail2banStats) (elapsedSeconds : ℚ) : Summary :=
  let hours : ℚ := max (elapsedSeconds / 3600) (1 / 100)
  { total_bans := st.ban_count
    total_unbans := st.unban_count
    total_finds := st.find_count
    unique_ips := st.banned_ips.length
    top_banned_ips := mostCommon 10 st.banned_ips
    top_jails := sortByCountDesc (st.jail_stats.map fun p => (p.1, p.2.bans))
    ban_frequency := (st.ban_count : ℚ) / hours
    detection_rate :=
      if 0 < st.find_count then ((st.ban_count : ℚ) / (st.find_count : ℚ)) * 100 else 0
    hourly_distribution := sortByKeyAsc st.hourly_stats }

/-- The fields captured by each of the three log patterns: timestamp,
severity tag (`INFO`/`NOTICE`, captured but never used), bracketed jail
name, trailing address token. -/
structure Captures where
  timestamp : String
  severity : String
  jail : String
  ip : String
  deriving DecidableEq, Repr

/-- Python `\s` on the ASCII range (the whitespace class of the `re`
patterns; the monitored log is ASCII). -/
def isSpace (c : Char) : Bool :=
  c = ' ' ∨ c = '\t' ∨ c = '\n' ∨ c = '\x0d' ∨ c = '\x0b' ∨ c = '\x0c'

/-- Split off the maximal leading run of characters satisfying `p`,
requiring it to be non-empty (the `+` quantifier: every `+`-quantified
class in the three patterns is followed by a character outside the
class, so greedy matching without backtracking is faithful). -/
def plusRun (p : Char → Bool) (cs : List Char) : Option (List Char × List Char) :=
  let run := cs.takeWhile p
  if run.length = 0 then none else some (run, cs.dropWhile p)

/-- Exactly `n` digits followed by a non-digit or the end of input
(`\d{n}` followed by a literal outside `\d`). -/
def exactDigits (n : Nat) (cs : List Char) : Option (List Char × List Char) :=
  let run := cs.takeWhile isDigit
  if run.length = n then some (run, cs.dropWhile isDigit) else none

/-- The alternation `(INFO|NOTICE)`: ordered alternatives, the match is
returned together with the rest of the input. -/
def matchSeverity (cs : List Char) : Option (List Char × List Char) :=
  match expectLit "INFO".data cs with
  | some r => some ("INFO".data, r)
  | none =>
    match expectLit "NOTICE".data cs with
    | some r => some ("NOTICE".data, r)
    | none => none

/-- The capture group `(\d{4}-\d{2}-\d{2} \d{2}:\d{2}:\d{2},\d+)` at
the current position: returns the captured timestamp text and the rest
of the input. -/
def matchTimestampPart (cs : List Char) : Option (List Char × List Char) := do
  let (yc, r) ← exactDigits 4 cs
  let r ← expectChar '-' r
  let (moc, r) ← exactDigits 2 r
  let r ← expectChar '-' r
  let (dc, r) ← exactDigits 2 r
  let r ← expectChar ' ' r
  let (hc, r) ← exactDigits 2 r
  let r ← expectChar ':' r
  let (mic, r) ← exactDigits 2 r
  let r ← expectChar ':' r
  let (sc, r) ← exactDigits 2 r
  let r ← expectChar ',' r
  let (fc, r) ← plusRun isDigit r
  some (yc ++ '-' :: moc ++ '-' :: dc ++ ' ' :: hc ++ ':' :: mic ++ ':' :: sc ++ ',' :: fc, r)

/-- The `<module>\s+\[\d+\]: (INFO|NOTICE)\s+\[` stretch between the
timestamp capture and the jail capture (the leading space is the
literal blank after the capture group): returns the severity capture
and the rest. -/
def matchHeaderPart (module : List Char) (cs : List Char) : Option (List Char × List Char) := do
  let r ← expectLit (' ' :: module) cs
  let (_, r) ← plusRun isSpace r
  let r ← expectChar '[' r
  let (_, r) ← plusRun isDigit r
  let r ← expectLit "]: ".data r
  let (sev, r) ← matchSeverity r
  let (_, r) ← plusRun isSpace r
  let r ← expectChar '[' r
  some (sev, r)

/-- The trailing `([^\]]+)\] <verb> (\S+)` stretch: returns the jail and
address captures (anything after the address token is ignored — the
pattern is not end-anchored). -/
def matchTailPart (verb : List Char) (cs : List Char) : Option (List Char × List Char) := do
  let (jc, r) ← plusRun (fun c => !(c = ']')) cs
  let r ← expectChar ']' r
  let r ← expectChar ' ' r
  let r ← expectLit verb r
  let r ← expectChar ' ' r
  let (ipc, _) ← plusRun (fun c => !(isSpace c)) r
  some (jc, ipc)

/-- Match one of the three event patterns at the current position.
Parameterised by the daemon component (`fail2ban.actions` /
`fail2ban.filter`) and the verb (`Ban` / `Unban` / `Found`); the common
shape is
`(\d{4}-\d{2}-\d{2} \d{2}:\d{2}:\d{2},\d+) <module>\s+\[\d+\]: (INFO|NOTICE)\s+\[([^\]]+)\] <verb> (\S+)`. -/
def matchEventAt (module verb : List Char) (cs : List Char) : Option Captures := do
  let (ts, r) ← matchTimestampPart cs
  let (sev, r) ← matchHeaderPart module r
  let (jc, ipc) ← matchTailPart verb r
  some { timestamp := ⟨ts⟩, severity := ⟨sev⟩, jail := ⟨jc⟩, ip := ⟨ipc⟩ }

/-- Python `re.search`: try the pattern at each start position, leftmost match
wins (the matcher itself is deterministic, see `plusRun`). -/
def searchEvent (module verb : List Char) : List Char → Option Captures
  | [] => matchEventAt module verb []
  | c :: rest =>
    match matchEventAt module verb (c :: rest) with
    | some cap => some cap
    | none => searchEvent module verb rest

/-- Model of `BAN_PATTERN.search(line)` (line 42). -/
def banSearch (line : String) : Option Captures :=
  searchEvent "fail2ban.actions".data "Ban".data line.data

/-- Model of `UNBAN_PATTERN.search(line)` (line 43). -/
def unbanSearch (line : String) : Option Captures :=
  searchEvent "fail2ban.actions".data "Unban".data line.data

/-- Model of `FIND_PATTERN.search(line)` (line 44). -/
def findSearch (line : String) : Option Captures :=
  searchEvent "fail2ban.filter".data "Found".data line.data

/-- The three recognised event kinds. -/
inductive EventKind
  | ban
  | unban
  | detection
  deriving DecidableEq, Repr

/-- A recognised security event: kind plus the captured fields that the
recording operations consume (the severity capture is discarded). -/
structure F2BEvent where
  kind : EventKind
  timestamp : String
  jail : String
  ip : String
  deriving DecidableEq, Repr

/-- The extraction half of `LogMonitor._process_line` (lines 237–261):
the three patterns are tried in the fixed order Ban, Unban, Found, and
the first match is returned as a typed event. -/
def extractEvent (line : String) : Option F2BEvent :=
  match banSearch line with
  | some c => some ⟨.ban, c.timestamp, c.jail, c.ip⟩
  | none =>
    match unbanSearch line with
    | some c => some ⟨.unban, c.timestamp, c.jail, c.ip⟩
    | none =>
      match findSearch line with
      | some c => some ⟨.detection, c.timestamp, c.jail, c.ip⟩
      | none => none

/-- Model of `LogMonitor._process_line` as a state transformer: dispatches the
extracted event to the matching record operation; a line matching no
pattern falls through all three branches and leaves the store untouched. -/
def processLine (st : Fail2banStats) (line : String) : Fail2banStats × List String :=
  match extractEvent line with
  | some e =>
    match e.kind with
    | .ban => record_ban st e.timestamp e.jail e.ip
    | .unban => record_unban st e.timestamp e.jail e.ip
    | .detection => record_find st e.timestamp e.jail e.ip
  | none => (st, [])

/-- Dispatch used to model arbitrary operation sequences against the
store (the claims quantify over all reachable states). -/
def step (st : Fail2banStats) (op : F2BEvent) : Fail2banStats :=
  match op.kind with
  | .ban => (record_ban st op.timestamp op.jail op.ip).1
  | .unban => (record_unban st op.timestamp op.jail op.ip).1
  | .detection => (record_find st op.timestamp op.jail op.ip).1

/-- The state reached from a fresh store by a sequence of record
operations. -/
def runOps (ops : List F2BEvent) : Fail2banStats :=
  ops.foldl step initStats

/-- File iteration `for line in f`: splits on newline; the terminator is
dropped here (Python keeps it, but `line.strip()` removes it before
processing); a final fragment without a terminator is still yielded,
and an empty file yields nothing. -/
def fileLines (cs : List Char) : List (List Char) :=
  match cs with
  | [] => []
  | c :: rest =>
    if c = '\n' then [] :: fileLines rest
    else
      match fileLines rest with
      | [] => [[c]]
      | l :: ls => (c :: l) :: ls

/-- Python `line.strip()` on the ASCII whitespace set. -/
def stripLine (cs : List Char) : String :=
  ⟨((cs.dropWhile isSpace).reverse.dropWhile isSpace).reverse⟩

/-- One successful pass of the body of `LogMonitor._monitor_log`'s
polling loop (lines 226–230): `f.seek(last_position)` (a position past
the end is legal and reads nothing), every line read is stripped and
processed, and `last_position = f.tell()` — the position after reading
to end-of-file, which is the file length when the old offset was within
the file and the unchanged stale offset when it was past the end. -/
def monitorIteration (st : Fail2banStats) (content : List Char) (lastPos : Nat) :
    Fail2banStats × Nat :=
  let st' := (fileLines (content.drop lastPos)).foldl
    (fun s l => (processLine s (stripLine l)).1) st
  (st', if content.length < lastPos then lastPos else content.length)

/-- What one interaction with the filesystem can look like from inside
the monitor thread. -/
inductive IoOutcome
  | avail (content : String)
  | missing
  | ioError
  deriving DecidableEq, Repr

/-- The initialization step of `LogMonitor._monitor_log` (lines
209–217): seed the offset to end-of-file when the file exists, to 0
when it does not; an exception here is logged and the method returns —
modelled as `none`, meaning the monitor thread terminates before the
polling loop is ever entered. -/
def monitorInit (io : IoOutcome) : Option Nat :=
  match io with
  | .avail content => some content.data.length
  | .missing => some 0
  | .ioError => none

/-- One tick of the polling loop of `LogMonitor._monitor_log` (lines
220–235): `none` means the loop exited (the `while self.running` test
failed); otherwise the new store state, the new offset and the
`time.sleep` duration of that tick in seconds (1 when the file is
missing, 0.1 after a normal pass, 5 after a caught exception). -/
def monitorLoopStep (running : Bool) (io : IoOutcome) (st : Fail2banStats) (pos : Nat) :
    Option (Fail2banStats × Nat × ℚ) :=
  if running = false then none
  else
    match io with
    | .missing => some (st, pos, 1)
    | .avail content =>
      let (st', pos') := monitorIteration st content.data pos
      some (st', pos', 1 / 10)
    | .ioError => some (st, pos, 5)

/-- Total of `address_ban_frequency` values. -/
def sumCounts (l : List (String × Nat)) : Nat := (l.map (fun p => p.2)).sum

/-- Total of `jail_breakdown[*].bans`. -/
def sumJailBans (l : List (String × JailStats)) : Nat := (l.map (fun p => p.2.bans)).sum

/-- The two-sided coherence property preserved by every operation. -/
def banCoherent (st : Fail2banStats) : Prop :=
  st.ban_count = sumJailBans st.jail_stats ∧ st.ban_count = sumCounts st.banned_ips

/-- The per-jail update applied by each event kind. -/
def kindUpdate : EventKind → JailStats → JailStats
  | .ban => fun s => { s with bans := s.bans + 1 }
  | .unban => fun s => { s with unbans := s.unbans + 1 }
  | .detection => fun s => { s with finds := s.finds + 1 }

/-- A concrete store with eleven distinct banned addresses, used to
exercise the ranking properties on an input longer than the top-10
cut-off. -/
def witnessStore : Fail2banStats :=
  { initStats with banned_ips :=
      [("a", 1), ("b", 2), ("c", 3), ("d", 4), ("e", 5), ("f", 6),
       ("g", 7), ("h", 8), ("i", 9), ("j", 10), ("k", 11)] }

/-- Chronological order on hour buckets: lexicographic comparison of
the (year, month, day, hour) components of the underlying time. -/
def chronoLt (a b : DateTime) : Prop :=
  a.year < b.year ∨ (a.year = b.year ∧ (a.month < b.month ∨ (a.month = b.month ∧
    (a.day < b.day ∨ (a.day = b.day ∧ a.hour < b.hour)))))

/-- Reflexive closure of `chronoLt` on the hour components. -/
def chronoLe (a b : DateTime) : Prop :=
  chronoLt a b ∨
    (a.year = b.year ∧ a.month = b.month ∧ a.day = b.day ∧ a.hour = b.hour)

/-- Component bounds satisfied by every value `parseTimestamp` can
produce (four-digit year field, at most two digits elsewhere). -/
def hourBounded (d : DateTime) : Prop :=
  d.year ≤ 9999 ∧ d.month ≤ 99 ∧ d.day ≤ 99 ∧ d.hour ≤ 99

/-- The stricter bounds under which `hourKey` really is fixed-width:
a year of at least 1000 keeps its four digits under the unpadded `%Y`.
Parseable years 1–999 violate this and produce shorter keys. -/
def hourFixedWidth (d : DateTime) : Prop :=
  1000 ≤ d.year ∧ d.year ≤ 9999 ∧ d.month ≤ 99 ∧ d.day ≤ 99 ∧ d.hour ≤ 99

/-! ### Association-list lemmas -/

theorem countOf_counterIncr_same (l : List (String × Nat)) (k : String) :
    countOf (counterIncr l k) k = countOf l k + 1 := by
  induction l with
  | nil => simp [counterIncr, countOf]
  | cons p rest ih =>
    obtain ⟨k', v⟩ := p
    by_cases h : k' = k <;> simp [counterIncr, countOf, h, ih]

theorem countOf_counterIncr_ne (l : List (String × Nat)) (k k' : String) (h : k' ≠ k) :
    countOf (counterIncr l k) k' = countOf l k' := by
  induction l with
  | nil => simp [counterIncr, countOf, Ne.symm h]
  | cons p rest ih =>
    obtain ⟨k₀, v⟩ := p
    by_cases h0 : k₀ = k <;> by_cases h1 : k₀ = k' <;>
      simp_all [counterIncr, countOf]

theorem jailOf_jailUpdate_same (l : List (String × JailStats)) (k : String)
    (f : JailStats → JailStats) :
    jailOf (jailUpdate l k f) k = f (jailOf l k) := by
  induction l with
  | nil => simp [jailUpdate, jailOf]
  | cons p rest ih =>
    obtain ⟨k', v⟩ := p
    by_cases h : k' = k <;> simp [jailUpdate, jailOf, h, ih]

theorem jailOf_jailUpdate_ne (l : List (String × JailStats)) (k k' : String)
    (f : JailStats → JailStats) (h : k' ≠ k) :
    jailOf (jailUpdate l k f) k' = jailOf l k' := by
  induction l with
  | nil => simp [jailUpdate, jailOf, Ne.symm h]
  | cons p rest ih =>
    obtain ⟨k₀, v⟩ := p
    by_cases h0 : k₀ = k <;> by_cases h1 : k₀ = k' <;>
      simp_all [jailUpdate, jailOf]

theorem jailEntry_jailUpdate_same (l : List (String × JailStats)) (k : String)
    (f : JailStats → JailStats) :
    jailEntry (jailUpdate l k f) k = some (f (jailOf l k)) := by
  induction l with
  | nil => simp [jailUpdate, jailEntry, jailOf]
  | cons p rest ih =>
    obtain ⟨k', v⟩ := p
    by_cases h : k' = k <;> simp [jailUpdate, jailEntry, jailOf, h, ih]

theorem jailEntry_jailUpdate_ne (l : List (String × JailStats)) (k k' : String)
    (f : JailStats → JailStats) (h : k' ≠ k) :
    jailEntry (jailUpdate l k f) k' = jailEntry l k' := by
  induction l with
  | nil => simp [jailUpdate, jailEntry, Ne.symm h]
  | cons p rest ih =>
    obtain ⟨k₀, v⟩ := p
    by_cases h0 : k₀ = k <;> by_cases h1 : k₀ = k' <;>
      simp_all [jailUpdate, jailEntry]

theorem mem_setAdd_self (s : List String) (j : String) : j ∈ setAdd s j := by
  by_cases h : j ∈ s <;> simp [setAdd, h]

theorem mem_jailsOf_jailsAdd (l : List (String × List String)) (ip jail : String) :
    jail ∈ jailsOf (jailsAdd l ip jail) ip := by
  induction l with
  | nil => simp [jailsAdd, jailsOf, mem_setAdd_self]
  | cons p rest ih =>
    obtain ⟨k', v⟩ := p
    by_cases h : k' = ip <;> simp [jailsAdd, jailsOf, h, ih, mem_setAdd_self]

/-! ### Sorting lemmas -/

theorem insertByCount_perm (x : String × Nat) (l : List (String × Nat)) :
    List.Perm (insertByCount x l) (x :: l) := by
  induction l with
  | nil => exact List.Perm.refl _
  | cons y ys ih =>
    simp only [insertByCount]
    by_cases h : y.2 ≤ x.2
    · rw [if_pos h]
    · rw [if_neg h]
      exact (ih.cons y).trans (List.Perm.swap x y ys)

theorem sortByCountDesc_perm (l : List (String × Nat)) :
    List.Perm (sortByCountDesc l) l := by
  induction l with
  | nil => exact List.Perm.refl _
  | cons x xs ih =>
    exact (insertByCount_perm x (sortByCountDesc xs)).trans (ih.cons x)

theorem insertByCount_sorted (x : String × Nat) (l : List (String × Nat))
    (h : l.Sorted (fun p q => q.2 ≤ p.2)) :
    (insertByCount x l).Sorted (fun p q => q.2 ≤ p.2) := by
  induction l with
  | nil => simp [insertByCount]
  | cons y ys ih =>
    rw [List.sorted_cons] at h
    simp only [insertByCount]
    by_cases hc : y.2 ≤ x.2
    · rw [if_pos hc, List.sorted_cons]
      refine ⟨?_, List.sorted_cons.mpr h⟩
      intro z hz
      rcases List.mem_cons.mp hz with hz | hz
      · exact hz ▸ hc
      · exact le_trans (h.1 z hz) hc
    · rw [if_neg hc, List.sorted_cons]
      refine ⟨?_, ih h.2⟩
      intro z hz
      rcases List.mem_cons.mp ((insertByCount_perm x ys).mem_iff.mp hz) with hz | hz
      · exact hz ▸ le_of_lt (lt_of_not_le hc)
      · exact h.1 z hz

theorem sortByCountDesc_sorted (l : List (String × Nat)) :
    (sortByCountDesc l).Sorted (fun p q => q.2 ≤ p.2) := by
  induction l with
  | nil => simp [sortByCountDesc]
  | cons x xs ih => exact insertByCount_sorted x (sortByCountDesc xs) ih

theorem insertByCount_filter (x : String × Nat) (l : List (String × Nat)) (c : Nat) :
    (insertByCount x l).filter (fun p => p.2 = c)
      = (x :: l).filter (fun p => p.2 = c) := by
  induction l with
  | nil => rfl
  | cons y ys ih =>
    simp only [insertByCount]
    by_cases hc : y.2 ≤ x.2
    · rw [if_pos hc]
    · rw [if_neg hc]
      by_cases hy : y.2 = c
      · have hx' : ¬ x.2 = c := by
          intro hxc
          exact hc (le_of_eq (hy.trans hxc.symm))
        simp [List.filter_cons, hy, hx', ih]
      · simp [List.filter_cons, hy, ih]

/-- Stability of the descending sort: for every count value, the
entries carrying that count appear in the sorted output in their
original (first-seen) order. -/
theorem sortByCountDesc_filter (l : List (String × Nat)) (c : Nat) :
    (sortByCountDesc l).filter (fun p => p.2 = c) = l.filter (fun p => p.2 = c) := by
  induction l with
  | nil => rfl
  | cons x xs ih =>
    calc (insertByCount x (sortByCountDesc xs)).filter (fun p => p.2 = c)
        = (x :: sortByCountDesc xs).filter (fun p => p.2 = c) :=
          insertByCount_filter x (sortByCountDesc xs) c
      _ = (x :: xs).filter (fun p => p.2 = c) := by
          by_cases hx : x.2 = c <;> simp [List.filter_cons, hx, ih]

theorem insertByKey_perm (x : String × Nat) (l : List (String × Nat)) :
    List.Perm (insertByKey x l) (x :: l) := by
  induction l with
  | nil => exact List.Perm.refl _
  | cons y ys ih =>
    simp only [insertByKey]
    by_cases h : x.1 < y.1
    · rw [if_pos h]
    · rw [if_neg h]
      exact (ih.cons y).trans (List.Perm.swap x y ys)

theorem insertByKey_sorted (x : String × Nat) (l : List (String × Nat))
    (h : l.Sorted (fun p q => p.1 ≤ q.1)) :
    (insertByKey x l).Sorted (fun p q => p.1 ≤ q.1) := by
  induction l with
  | nil => simp [insertByKey]
  | cons y ys ih =>
    rw [List.sorted_cons] at h
    simp only [insertByKey]
    by_cases hc : x.1 < y.1
    · rw [if_pos hc, List.sorted_cons]
      refine ⟨?_, List.sorted_cons.mpr h⟩
      intro z hz
      rcases List.mem_cons.mp hz with hz | hz
      · exact hz ▸ le_of_lt hc
      · exact le_trans (le_of_lt hc) (h.1 z hz)
    · rw [if_neg hc, List.sorted_cons]
      refine ⟨?_, ih h.2⟩
      intro z hz
      rcases List.mem_cons.mp ((insertByKey_perm x ys).mem_iff.mp hz) with hz | hz
      · exact hz ▸ le_of_not_lt hc
      · exact h.1 z hz

theorem sortByKeyAsc_sorted (l : List (String × Nat)) :
    (sortByKeyAsc l).Sorted (fun p q => p.1 ≤ q.1) := by
  induction l with
  | nil => simp [sortByKeyAsc]
  | cons x xs ih => exact insertByKey_sorted x (sortByKeyAsc xs) ih

theorem sortByKeyAsc_perm (l : List (String × Nat)) :
    List.Perm (sortByKeyAsc l) l := by
  induction l with
  | nil => exact List.Perm.refl _
  | cons x xs ih =>
    exact (insertByKey_perm x (sortByKeyAsc xs)).trans (ih.cons x)

/-! ### C3: the ban-count coherence invariant -/

theorem sumCounts_counterIncr (l : List (String × Nat)) (k : String) :
    sumCounts (counterIncr l k) = sumCounts l + 1 := by
  induction l with
  | nil => simp [counterIncr, sumCounts]
  | cons p rest ih =>
    obtain ⟨k', v⟩ := p
    by_cases h : k' = k <;> simp [counterIncr, sumCounts, h] <;>
      simp [sumCounts] at ih <;> omega

theorem sumJailBans_jailUpdate_ban (l : List (String × JailStats)) (k : String) :
    sumJailBans (jailUpdate l k (fun s => { s with bans := s.bans + 1 }))
      = sumJailBans l + 1 := by
  induction l with
  | nil => simp [jailUpdate, sumJailBans, JailStats.zero]
  | cons p rest ih =>
    obtain ⟨k', v⟩ := p
    by_cases h : k' = k <;> simp [jailUpdate, sumJailBans, h] <;>
      simp [sumJailBans] at ih <;> omega

theorem sumJailBans_jailUpdate_unban (l : List (String × JailStats)) (k : String) :
    sumJailBans (jailUpdate l k (fun s => { s with unbans := s.unbans + 1 }))
      = sumJailBans l := by
  induction l with
  | nil => simp [jailUpdate, sumJailBans, JailStats.zero]
  | cons p rest ih =>
    obtain ⟨k', v⟩ := p
    by_cases h : k' = k <;> simp [jailUpdate, sumJailBans, h] <;>
      simp [sumJailBans] at ih <;> omega

theorem sumJailBans_jailUpdate_find (l : List (String × JailStats)) (k : String) :
    sumJailBans (jailUpdate l k (fun s => { s with finds := s.finds + 1 }))
      = sumJailBans l := by
  induction l with
  | nil => simp [jailUpdate, sumJailBans, JailStats.zero]
  | cons p rest ih =>
    obtain ⟨k', v⟩ := p
    by_cases h : k' = k <;> simp [jailUpdate, sumJailBans, h] <;>
      simp [sumJailBans] at ih <;> omega

theorem step_banCoherent (st : Fail2banStats) (op : F2BEvent) (h : banCoherent st) :
    banCoherent (step st op) := by
  obtain ⟨h1, h2⟩ := h
  cases hk : op.kind
  · constructor
    · cases hp : parseTimestamp op.timestamp <;>
        simp [step, hk, record_ban, hp, sumJailBans_jailUpdate_ban, h1]
    · cases hp : parseTimestamp op.timestamp <;>
        simp [step, hk, record_ban, hp, sumCounts_counterIncr, h2]
  · exact ⟨by simp [step, hk, record_unban, sumJailBans_jailUpdate_unban, h1],
      by simp [step, hk, record_unban, h2]⟩
  · exact ⟨by simp [step, hk, record_find, sumJailBans_jailUpdate_find, h1],
      by simp [step, hk, record_find, h2]⟩

theorem foldl_banCoherent (ops : List F2BEvent) :
    ∀ st : Fail2banStats, banCoherent st → banCoherent (ops.foldl step st) := by
  induction ops with
  | nil => intro st h; exact h
  | cons op rest ih => intro st h; exact ih (step st op) (step_banCoherent st op h)

/-- C3: in every state reachable from a fresh store by record
operations, `ban_count` equals the sum of per-jail ban counters and the
sum of per-address ban frequencies, and the snapshot's total ban count
equals the sum of the ban counts in its jail ranking. -/
theorem ban_count_coherence (ops : List F2BEvent) (e : ℚ) :
    (runOps ops).ban_count = sumJailBans (runOps ops).jail_stats ∧
    (runOps ops).ban_count = sumCounts (runOps ops).banned_ips ∧
    (get_summary (runOps ops) e).total_bans
      = (((get_summary (runOps ops) e).top_jails).map (fun p => p.2)).sum := by
  have h := foldl_banCoherent ops initStats ⟨rfl, rfl⟩
  have h1 : (runOps ops).ban_count = sumJailBans (runOps ops).jail_stats := h.1
  have h2 : (runOps ops).ban_count = sumCounts (runOps ops).banned_ips := h.2
  refine ⟨h1, h2, ?_⟩
  show (runOps ops).ban_count = _
  have hperm : List.Perm ((get_summary (runOps ops) e).top_jails)
      ((runOps ops).jail_stats.map (fun p => (p.1, p.2.bans))) :=
    sortByCountDesc_perm _
  have hsum := (hperm.map (fun p => p.2)).sum_eq
  rw [hsum, h1]
  simp only [sumJailBans, List.map_map]
  rfl

/-! ### C1: effects of recording a ban -/

/-- C1: recording a ban with timestamp `t`, jail `j`, address `a`
increments `ban_count`, `address_ban_frequency[a]`,
`jail_breakdown[j].bans`, and adds `j` to `address_to_jails[a]`;
the hourly bucket for the timestamp's hour is incremented exactly when
the timestamp parses, and on a parse failure the ban is still counted
in all non-time-bucketed aggregates while an error message is emitted
(not silently swallowed). -/
theorem record_ban_effects (st : Fail2banStats) (t j a : String) :
    (record_ban st t j a).1.ban_count = st.ban_count + 1 ∧
    countOf (record_ban st t j a).1.banned_ips a = countOf st.banned_ips a + 1 ∧
    (jailOf (record_ban st t j a).1.jail_stats j).bans
      = (jailOf st.jail_stats j).bans + 1 ∧
    j ∈ jailsOf (record_ban st t j a).1.ip_jail_map a ∧
    (match parseTimestamp t with
     | some dt =>
        countOf (record_ban st t j a).1.hourly_stats (hourKey dt)
          = countOf st.hourly_stats (hourKey dt) + 1 ∧
        (record_ban st t j a).2 = []
     | none =>
        (record_ban st t j a).1.hourly_stats = st.hourly_stats ∧
        (record_ban st t j a).2 = ["Failed to parse timestamp: " ++ t]) := by
  cases h : parseTimestamp t <;>
    simp [record_ban, h, countOf_counterIncr_same, jailOf_jailUpdate_same,
      mem_jailsOf_jailsAdd]

/-! ### C4: effects and frame of recording an unban -/

/-- C4: recording an unban with jail `j` increments exactly
`unban_count` and `jail_breakdown[j].unbans`; every other aggregate is
unchanged — in particular `address_ban_frequency` and
`address_to_jails` are equal before and after (so no frequency
decreases and no address is removed), entries of other jails are
untouched, and no jail's ban or detection counter changes. -/
theorem record_unban_effects (st : Fail2banStats) (t j a : String) :
    (record_unban st t j a).1.unban_count = st.unban_count + 1 ∧
    (jailOf (record_unban st t j a).1.jail_stats j).unbans
      = (jailOf st.jail_stats j).unbans + 1 ∧
    (record_unban st t j a).1.ban_count = st.ban_count ∧
    (record_unban st t j a).1.find_count = st.find_count ∧
    (record_unban st t j a).1.banned_ips = st.banned_ips ∧
    (record_unban st t j a).1.ip_jail_map = st.ip_jail_map ∧
    (record_unban st t j a).1.hourly_stats = st.hourly_stats ∧
    (record_unban st t j a).1.ban_times = st.ban_times ∧
    (∀ j', j' ≠ j →
      jailEntry (record_unban st t j a).1.jail_stats j' = jailEntry st.jail_stats j') ∧
    (∀ j', (jailOf (record_unban st t j a).1.jail_stats j').bans
        = (jailOf st.jail_stats j').bans ∧
      (jailOf (record_unban st t j a).1.jail_stats j').finds
        = (jailOf st.jail_stats j').finds) := by
  refine ⟨rfl, ?_, rfl, rfl, rfl, rfl, rfl, rfl, ?_, ?_⟩
  · simp [record_unban, jailOf_jailUpdate_same]
  · intro j' h
    simp [record_unban, jailEntry_jailUpdate_ne _ _ _ _ h]
  · intro j'
    by_cases h : j' = j
    · subst h
      simp [record_unban, jailOf_jailUpdate_same]
    · simp [record_unban, jailOf_jailUpdate_ne _ _ _ _ h]

/-- Witness for `record_unban_effects` at a concrete store and jail. -/
theorem record_unban_effects_witness :
    (record_unban initStats "t" "sshd" "1.2.3.4").1.unban_count = 0 + 1 ∧
    jailEntry (record_unban initStats "t" "sshd" "1.2.3.4").1.jail_stats "apache"
      = jailEntry initStats.jail_stats "apache" ∧
    (jailOf (record_unban initStats "t" "sshd" "1.2.3.4").1.jail_stats "sshd").bans
      = (jailOf initStats.jail_stats "sshd").bans := by
  have h := record_unban_effects initStats "t" "sshd" "1.2.3.4"
  exact ⟨h.1, h.2.2.2.2.2.2.2.2.1 "apache" (by decide),
    (h.2.2.2.2.2.2.2.2.2 "sshd").1⟩

/-! ### C7: snapshot rate formulas -/

/-- C7: the snapshot's ban rate is `ban_count` divided by
`max(elapsed_hours, 0.01)` — a strictly positive denominator, so the
rate is defined even at zero elapsed time (where it degenerates to
`ban_count * 100`) — and the detection rate is
`ban_count / detection_count * 100` when `detection_count > 0` and 0
when `detection_count = 0`. -/
theorem get_summary_rates (st : Fail2banStats) (e : ℚ) :
    (get_summary st e).ban_frequency = (st.ban_count : ℚ) / max (e / 3600) (1 / 100) ∧
    (0 : ℚ) < max (e / 3600) (1 / 100) ∧
    (get_summary st 0).ban_frequency = (st.ban_count : ℚ) * 100 ∧
    (0 < st.find_count →
      (get_summary st e).detection_rate
        = ((st.ban_count : ℚ) / (st.find_count : ℚ)) * 100) ∧
    (st.find_count = 0 → (get_summary st e).detection_rate = 0) := by
  refine ⟨rfl, lt_max_of_lt_right (by norm_num), ?_, ?_, ?_⟩
  · show (st.ban_count : ℚ) / max ((0 : ℚ) / 3600) (1 / 100) = (st.ban_count : ℚ) * 100
    rw [zero_div, max_eq_right (by norm_num : (0 : ℚ) ≤ 1 / 100), one_div,
      div_eq_mul_inv, inv_inv]
  · intro h
    simp [get_summary, h]
  · intro h
    simp [get_summary, h]

/-- Witness for `get_summary_rates` at a concrete store and elapsed time. -/
theorem get_summary_rates_witness :
    (get_summary { initStats with ban_count := 7, find_count := 4 } 3600).ban_frequency
      = 7 ∧
    (get_summary { initStats with ban_count := 7, find_count := 4 } 3600).detection_rate
      = 175 := by
  have h := get_summary_rates { initStats with ban_count := 7, find_count := 4 } 3600
  constructor
  · rw [h.1]
    norm_num
  · rw [h.2.2.2.1 (by norm_num)]
    norm_num

/-! ### C2: the extractor tries Ban, Unban, Found in order -/

/-- C2: for every line, the extractor tries the Ban, Unban and
Detection recognizers in that fixed priority order and returns the
first match with its captured fields (timestamp, jail, address; the
severity capture is dropped); a line matching none of the three
templates yields no event, and feeding it to the line processor leaves
the store state completely unchanged (and emits nothing). -/
theorem extractEvent_spec (st : Fail2banStats) (line : String) :
    (∀ c, banSearch line = some c →
      extractEvent line = some ⟨.ban, c.timestamp, c.jail, c.ip⟩) ∧
    (banSearch line = none → ∀ c, unbanSearch line = some c →
      extractEvent line = some ⟨.unban, c.timestamp, c.jail, c.ip⟩) ∧
    (banSearch line = none → unbanSearch line = none →
      ∀ c, findSearch line = some c →
        extractEvent line = some ⟨.detection, c.timestamp, c.jail, c.ip⟩) ∧
    (extractEvent line = none ↔
      banSearch line = none ∧ unbanSearch line = none ∧ findSearch line = none) ∧
    (extractEvent line = none → processLine st line = (st, [])) := by
  cases hb : banSearch line <;> cases hu : unbanSearch line <;>
    cases hf : findSearch line <;>
      simp [extractEvent, processLine, hb, hu, hf]

/-- Witness for `extractEvent_spec`: a realistic ban line produces a
Ban event with the captured fields, and a line matching no template
leaves a fresh store untouched. -/
theorem extractEvent_spec_witness :
    extractEvent "2024-01-01 10:00:00,000 fail2ban.actions [123]: NOTICE [sshd] Ban 1.2.3.4"
      = some ⟨.ban, "2024-01-01 10:00:00,000", "sshd", "1.2.3.4"⟩ ∧
    processLine initStats "hello world" = (initStats, []) := by
  constructor
  · exact (extractEvent_spec initStats
      "2024-01-01 10:00:00,000 fail2ban.actions [123]: NOTICE [sshd] Ban 1.2.3.4").1
      ⟨"2024-01-01 10:00:00,000", "NOTICE", "sshd", "1.2.3.4"⟩ (by rfl)
  · exact (extractEvent_spec initStats "hello world").2.2.2.2 (by rfl)

/-! ### C5: behaviour when the recorded offset exceeds the file length -/

/-- C5 counterexample: with the file shrunk to two characters (holding
one full new line) and a stale offset of 100, the polling pass does not
reset the offset to the current end of file (2): it stays 100, and the
new line below the stale offset is never ingested. -/
theorem monitorIteration_no_reset :
    (monitorIteration initStats ("x\n".data) 100).2 = 100 ∧
    ("x\n".data).length = 2 ∧
    (monitorIteration initStats ("x\n".data) 100).1 = initStats ∧
    ¬ (monitorIteration initStats ("x\n".data) 100).2 = ("x\n".data).length := by
  exact ⟨rfl, rfl, rfl, by decide⟩

/-- C5 (amended): in a polling pass whose recorded offset exceeds the
current file length, the Tailer does not fail: it reads nothing, leaves
the store unchanged, and keeps the stale offset (`f.tell()` after a
seek past end-of-file); it is not reset to the current end-of-file, so
newly appended lines are only ingested once the file length reaches the
stale offset again. -/
theorem monitorIteration_stale_offset (st : Fail2banStats) (content : List Char)
    (pos : Nat) (h : content.length < pos) :
    monitorIteration st content pos = (st, pos) ∧
    (∀ content₂ : List Char, pos ≤ content₂.length →
      (monitorIteration st content₂ pos).2 = content₂.length) := by
  constructor
  · have hdrop : content.drop pos = [] := List.drop_eq_nil_of_le (le_of_lt h)
    simp [monitorIteration, hdrop, fileLines, if_pos h]
  · intro c2 h2
    simp [monitorIteration, if_neg (not_lt.mpr h2)]

/-- Witness for `monitorIteration_stale_offset` at a concrete
truncated file. -/
theorem monitorIteration_stale_offset_witness :
    monitorIteration initStats ("x\n".data) 100 = (initStats, 100) ∧
    (monitorIteration initStats ("abc".data ++ List.replicate 97 ' ') 100).2 = 100 := by
  have h := monitorIteration_stale_offset initStats ("x\n".data) 100 (by decide)
  exact ⟨h.1, h.2 ("abc".data ++ List.replicate 97 ' ') (by simp)⟩

/-! ### C6: loop termination and error backoff -/

/-- C6 counterexample: an exception during the startup offset-seeding
step of `_monitor_log` is caught, logged — and then the method returns:
the ingestion loop terminates (it is never entered) although `stop()`
was never called, contradicting the claim that no condition other than
an explicit stop ends ingestion. -/
theorem monitorInit_error_terminates : monitorInit IoOutcome.ioError = none := rfl

/-- C6 (amended): once the polling loop is running, a tick exits the
loop exactly when the running flag has been cleared by `stop()`; an
I/O error inside the loop body is caught and followed by a 5-second
backoff — longer than both the 0.1-second cadence and the 1-second
missing-file wait — after which the loop retries with unchanged state;
but an error during the startup offset-seeding terminates the monitor
thread before the loop starts (`monitorInit` returns `none`). -/
theorem monitorLoopStep_spec (running : Bool) (io : IoOutcome) (st : Fail2banStats)
    (pos : Nat) :
    (monitorLoopStep running io st pos = none ↔ running = false) ∧
    (running = true → monitorLoopStep running .ioError st pos = some (st, pos, 5)) ∧
    ((1 : ℚ) / 10 < 5 ∧ (1 : ℚ) < 5) ∧
    monitorInit IoOutcome.ioError = none := by
  refine ⟨?_, ?_, by norm_num, rfl⟩
  · cases hr : running <;> cases io <;> simp [monitorLoopStep]
  · intro h
    subst h
    rfl

/-- Witness for `monitorLoopStep_spec`: a concrete error tick retries
with a 5-second backoff, and clearing the flag stops the loop. -/
theorem monitorLoopStep_spec_witness :
    monitorLoopStep true IoOutcome.ioError initStats 7 = some (initStats, 7, 5) ∧
    monitorLoopStep false IoOutcome.missing initStats 7 = none := by
  have h := monitorLoopStep_spec true IoOutcome.ioError initStats 7
  have h2 := monitorLoopStep_spec false IoOutcome.missing initStats 7
  exact ⟨h.2.1 rfl, h2.1.mpr rfl⟩

/-! ### Reachability lemmas for jail entries and address keys -/

theorem step_jail_stats (st : Fail2banStats) (op : F2BEvent) :
    (step st op).jail_stats = jailUpdate st.jail_stats op.jail (kindUpdate op.kind) := by
  cases hk : op.kind
  · cases hp : parseTimestamp op.timestamp <;>
      simp [step, hk, record_ban, hp, kindUpdate]
  · simp [step, hk, record_unban, kindUpdate]
  · simp [step, hk, record_find, kindUpdate]

theorem jailOf_of_jailEntry (l : List (String × JailStats)) (k : String) (s : JailStats)
    (h : jailEntry l k = some s) : jailOf l k = s := by
  induction l with
  | nil => simp [jailEntry] at h
  | cons p rest ih =>
    obtain ⟨k', v⟩ := p
    by_cases hk : k' = k
    · simp [jailEntry, hk] at h
      simp [jailOf, hk, h]
    · simp [jailEntry, hk] at h
      simp [jailOf, hk, ih h]

theorem mem_of_jailEntry (l : List (String × JailStats)) (k : String) (s : JailStats)
    (h : jailEntry l k = some s) : (k, s) ∈ l := by
  induction l with
  | nil => simp [jailEntry] at h
  | cons p rest ih =>
    obtain ⟨k', v⟩ := p
    by_cases hk : k' = k
    · simp [jailEntry, hk] at h
      simp [hk, h]
    · simp [jailEntry, hk] at h
      exact List.mem_cons_of_mem _ (ih h)

theorem foldl_jail_no_ban (ops : List F2BEvent) (j : String) :
    ∀ st : Fail2banStats, (∀ op ∈ ops, op.jail = j → op.kind ≠ .ban) →
      (jailOf (ops.foldl step st).jail_stats j).bans = (jailOf st.jail_stats j).bans ∧
      (((jailEntry st.jail_stats j).isSome ∨ ∃ op ∈ ops, op.jail = j) →
        (jailEntry (ops.foldl step st).jail_stats j).isSome) := by
  induction ops with
  | nil =>
    intro st _
    exact ⟨rfl, fun h => by
      rcases h with h | ⟨op, hop, _⟩
      · exact h
      · simp at hop⟩
  | cons op rest ih =>
    intro st hops
    have hop : op.jail = j → op.kind ≠ .ban := hops op (List.mem_cons_self op rest)
    have hrest : ∀ o ∈ rest, o.jail = j → o.kind ≠ .ban :=
      fun o ho => hops o (List.mem_cons_of_mem op ho)
    have ihs := ih (step st op) hrest
    have hbans : (jailOf (step st op).jail_stats j).bans = (jailOf st.jail_stats j).bans := by
      rw [step_jail_stats]
      by_cases hj : j = op.jail
      · subst hj
        rw [jailOf_jailUpdate_same]
        cases hk : op.kind
        · exact absurd hk (hop rfl)
        · rfl
        · rfl
      · rw [jailOf_jailUpdate_ne _ _ _ _ hj]
    have hentry : ((jailEntry st.jail_stats j).isSome ∨ op.jail = j) →
        (jailEntry (step st op).jail_stats j).isSome := by
      intro h
      rw [step_jail_stats]
      by_cases hj : j = op.jail
      · subst hj
        rw [jailEntry_jailUpdate_same]
        rfl
      · rw [jailEntry_jailUpdate_ne _ _ _ _ hj]
        rcases h with h | h
        · exact h
        · exact absurd h.symm hj
    constructor
    · calc (jailOf ((op :: rest).foldl step st).jail_stats j).bans
          = (jailOf (step st op).jail_stats j).bans := ihs.1
        _ = (jailOf st.jail_stats j).bans := hbans
    · intro h
      refine ihs.2 ?_
      rcases h with h | ⟨o, ho, hoj⟩
      · exact Or.inl (hentry (Or.inl h))
      · rcases List.mem_cons.mp ho with rfl | ho'
        · exact Or.inl (hentry (Or.inr hoj))
        · exact Or.inr ⟨o, ho', hoj⟩

theorem keys_counterIncr (l : List (String × Nat)) (k : String) :
    (counterIncr l k).map Prod.fst
      = if k ∈ l.map Prod.fst then l.map Prod.fst else l.map Prod.fst ++ [k] := by
  induction l with
  | nil => simp [counterIncr]
  | cons p rest ih =>
    obtain ⟨k', v⟩ := p
    by_cases h : k' = k
    · simp [counterIncr, h]
    · by_cases hm : k ∈ rest.map Prod.fst <;>
        simp [counterIncr, h, Ne.symm h, hm, ih]

theorem keys_jailsAdd (l : List (String × List String)) (ip jail : String) :
    (jailsAdd l ip jail).map Prod.fst
      = if ip ∈ l.map Prod.fst then l.map Prod.fst else l.map Prod.fst ++ [ip] := by
  induction l with
  | nil => simp [jailsAdd]
  | cons p rest ih =>
    obtain ⟨k', v⟩ := p
    by_cases h : k' = ip
    · simp [jailsAdd, h]
    · by_cases hm : ip ∈ rest.map Prod.fst <;>
        simp [jailsAdd, h, Ne.symm h, hm, ih]

theorem foldl_address_no_ban (ops : List F2BEvent) (a : String) :
    ∀ st : Fail2banStats, (∀ op ∈ ops, op.ip = a → op.kind ≠ .ban) →
      a ∉ st.banned_ips.map Prod.fst → a ∉ st.ip_jail_map.map Prod.fst →
      a ∉ (ops.foldl step st).banned_ips.map Prod.fst ∧
        a ∉ (ops.foldl step st).ip_jail_map.map Prod.fst := by
  induction ops with
  | nil => intro st _ h1 h2; exact ⟨h1, h2⟩
  | cons op rest ih =>
    intro st hops h1 h2
    have hop : op.ip = a → op.kind ≠ .ban := hops op (List.mem_cons_self op rest)
    have hrest : ∀ o ∈ rest, o.ip = a → o.kind ≠ .ban :=
      fun o ho => hops o (List.mem_cons_of_mem op ho)
    have h1' : a ∉ (step st op).banned_ips.map Prod.fst := by
      cases hk : op.kind
      · have hne : op.ip ≠ a := fun h => hop h hk
        cases hp : parseTimestamp op.timestamp <;>
          · simp only [step, hk, record_ban, hp]
            rw [keys_counterIncr]
            by_cases hm : op.ip ∈ st.banned_ips.map Prod.fst <;>
              simp [hm, h1, Ne.symm hne]
      · simpa [step, hk, record_unban] using h1
      · simpa [step, hk, record_find] using h1
    have h2' : a ∉ (step st op).ip_jail_map.map Prod.fst := by
      cases hk : op.kind
      · have hne : op.ip ≠ a := fun h => hop h hk
        cases hp : parseTimestamp op.timestamp <;>
          · simp only [step, hk, record_ban, hp]
            rw [keys_jailsAdd]
            by_cases hm : op.ip ∈ st.ip_jail_map.map Prod.fst <;>
              simp [hm, h2, Ne.symm hne]
      · simpa [step, hk, record_unban] using h2
      · simpa [step, hk, record_find] using h2
    exact ih (step st op) hrest h1' h2'

/-! ### C10: jails referenced only by unban/detection events -/

/-- C10: if a jail `j` is referenced by some event of a trace but never
by a ban event, the final state holds a materialised `jail_breakdown`
entry for `j` whose ban counter is 0, the snapshot's jail ranking
contains `(j, 0)`, and every address that likewise occurs only in
unban/detection events is absent from the address-keyed aggregates
(`address_ban_frequency` and `address_to_jails`). -/
theorem jail_without_bans (ops : List F2BEvent) (j : String) (e : ℚ)
    (hnoban : ∀ op ∈ ops, op.jail = j → op.kind ≠ .ban)
    (href : ∃ op ∈ ops, op.jail = j) :
    (∃ s, jailEntry (runOps ops).jail_stats j = some s ∧ s.bans = 0) ∧
    (j, 0) ∈ (get_summary (runOps ops) e).top_jails ∧
    (∀ a : String, (∀ op ∈ ops, op.ip = a → op.kind ≠ .ban) →
      a ∉ (runOps ops).banned_ips.map Prod.fst ∧
      a ∉ (runOps ops).ip_jail_map.map Prod.fst) := by
  have h := foldl_jail_no_ban ops j initStats hnoban
  have hsome : (jailEntry (runOps ops).jail_stats j).isSome := h.2 (Or.inr href)
  obtain ⟨s, hs⟩ := Option.isSome_iff_exists.mp hsome
  have hof : jailOf (runOps ops).jail_stats j = s := jailOf_of_jailEntry _ _ _ hs
  have hbans : s.bans = 0 := by
    have hb : (jailOf (runOps ops).jail_stats j).bans
        = (jailOf initStats.jail_stats j).bans := h.1
    rw [hof] at hb
    simpa [initStats, jailOf, JailStats.zero] using hb
  refine ⟨⟨s, hs, hbans⟩, ?_, ?_⟩
  · have hmem : (j, s) ∈ (runOps ops).jail_stats := mem_of_jailEntry _ _ _ hs
    have hmem2 : (j, s.bans) ∈ (runOps ops).jail_stats.map (fun p => (p.1, p.2.bans)) :=
      List.mem_map.mpr ⟨(j, s), hmem, rfl⟩
    have : (j, (0 : Nat)) ∈ (runOps ops).jail_stats.map (fun p => (p.1, p.2.bans)) := by
      rwa [hbans] at hmem2
    exact (sortByCountDesc_perm _).mem_iff.mpr this
  · intro a ha
    exact foldl_address_no_ban ops a initStats ha (by simp [initStats]) (by simp [initStats])

/-- Witness for `jail_without_bans`: a trace holding a single unban in
jail `idle` yields a materialised `idle` entry with 0 bans, ranked with
ban count 0, and its address appears in no address-keyed aggregate. -/
theorem jail_without_bans_witness :
    (∃ s, jailEntry
        (runOps [⟨.unban, "t", "idle", "9.9.9.9"⟩]).jail_stats "idle"
        = some s ∧ s.bans = 0) ∧
    ("idle", 0) ∈ (get_summary (runOps [⟨.unban, "t", "idle", "9.9.9.9"⟩]) 1).top_jails ∧
    "9.9.9.9" ∉ (runOps [⟨.unban, "t", "idle", "9.9.9.9"⟩]).banned_ips.map Prod.fst := by
  have h := jail_without_bans [⟨.unban, "t", "idle", "9.9.9.9"⟩] "idle" 1
    (by intro op hop hj; simp at hop; simp [hop])
    ⟨⟨.unban, "t", "idle", "9.9.9.9"⟩, by simp⟩
  exact ⟨h.1, h.2.1, (h.2.2 "9.9.9.9" (by intro op hop hi; simp at hop; simp [hop])).1⟩

/-! ### C8: snapshot rankings -/

theorem keys_counterIncr_nodup (l : List (String × Nat)) (k : String)
    (h : (l.map Prod.fst).Nodup) : ((counterIncr l k).map Prod.fst).Nodup := by
  rw [keys_counterIncr]
  by_cases hm : k ∈ l.map Prod.fst
  · simpa [hm] using h
  · simp [hm, List.nodup_append, h]

theorem runOps_banned_keys_nodup (ops : List F2BEvent) :
    ((runOps ops).banned_ips.map Prod.fst).Nodup := by
  suffices hgen : ∀ st : Fail2banStats, (st.banned_ips.map Prod.fst).Nodup →
      ((ops.foldl step st).banned_ips.map Prod.fst).Nodup by
    exact hgen initStats (by simp [initStats])
  induction ops with
  | nil => intro st h; exact h
  | cons op rest ih =>
    intro st h
    refine ih (step st op) ?_
    cases hk : op.kind
    · cases hp : parseTimestamp op.timestamp <;>
        · simp only [step, hk, record_ban, hp]
          exact keys_counterIncr_nodup _ _ h
    · simpa [step, hk, record_unban] using h
    · simpa [step, hk, record_find] using h

/-- C8: the snapshot's top-banned-addresses list is the first
`min(10, number of distinct banned addresses)` entries of the stable
descending sort of `address_ban_frequency` — a permutation of the full
table sorted by frequency descending with ties kept in first-seen
order — so it holds the highest-frequency addresses (every dropped
entry's count is at most every kept entry's count); and the jail
ranking lists all jails in descending order of ban count.  (Reachable
states have pairwise-distinct address keys, so the list length is the
distinct-address count.) -/
theorem snapshot_rankings (st : Fail2banStats) (e : ℚ) :
    (get_summary st e).top_banned_ips = (sortByCountDesc st.banned_ips).take 10 ∧
    List.Perm (sortByCountDesc st.banned_ips) st.banned_ips ∧
    (get_summary st e).top_banned_ips.length = min 10 st.banned_ips.length ∧
    ((get_summary st e).top_banned_ips).Sorted (fun p q => q.2 ≤ p.2) ∧
    (∀ q ∈ (sortByCountDesc st.banned_ips).drop 10,
      ∀ p ∈ (get_summary st e).top_banned_ips, q.2 ≤ p.2) ∧
    (∀ c, (sortByCountDesc st.banned_ips).filter (fun p => p.2 = c)
        = st.banned_ips.filter (fun p => p.2 = c)) ∧
    List.Perm ((get_summary st e).top_jails)
      (st.jail_stats.map (fun p => (p.1, p.2.bans))) ∧
    ((get_summary st e).top_jails).Sorted (fun p q => q.2 ≤ p.2) ∧
    (∀ ops : List F2BEvent, ((runOps ops).banned_ips.map Prod.fst).Nodup) := by
  refine ⟨rfl, sortByCountDesc_perm _, ?_, ?_, ?_, sortByCountDesc_filter _, ?_, ?_, ?_⟩
  · show ((sortByCountDesc st.banned_ips).take 10).length = _
    rw [List.length_take, (sortByCountDesc_perm st.banned_ips).length_eq]
  · exact (sortByCountDesc_sorted st.banned_ips).sublist (List.take_sublist _ _)
  · intro q hq p hp
    exact (sortByCountDesc_sorted st.banned_ips).rel_of_mem_take_of_mem_drop hp hq
  · exact sortByCountDesc_perm _
  · exact sortByCountDesc_sorted _
  · exact runOps_banned_keys_nodup

/-- Witness for `snapshot_rankings` on the eleven-address store: the
top list has length `min 10 11`, the one dropped entry's count is
bounded by a kept entry's count, and stability holds at count 1. -/
theorem snapshot_rankings_witness :
    (get_summary witnessStore 1).top_banned_ips.length
      = min 10 witnessStore.banned_ips.length ∧
    (1 : Nat) ≤ 11 ∧
    (sortByCountDesc witnessStore.banned_ips).filter (fun p => p.2 = 1)
      = witnessStore.banned_ips.filter (fun p => p.2 = 1) := by
  have h := snapshot_rankings witnessStore 1
  refine ⟨h.2.2.1, ?_, h.2.2.2.2.2.1 1⟩
  exact h.2.2.2.2.1 ("a", 1) (by decide) ("k", 11) (by decide)

/-! ### C9: lexicographic key order is chronological order -/

theorem nil_not_lt_nil : ¬ (([] : List Char) < []) := by
  intro h
  cases h

theorem charList_cons_lt (a b : Char) (as bs : List Char) :
    (a :: as) < (b :: bs) ↔ (a < b ∨ (a = b ∧ as < bs)) := by
  constructor
  · intro h
    cases h with
    | cons h => exact Or.inr ⟨rfl, h⟩
    | rel h => exact Or.inl h
  · intro h
    rcases h with h | ⟨rfl, h⟩
    · exact List.Lex.rel h
    · exact List.Lex.cons h

theorem mul_add_lt_iff (k q1 r1 q2 r2 : Nat) (h1 : r1 < k) (h2 : r2 < k) :
    k * q1 + r1 < k * q2 + r2 ↔ (q1 < q2 ∨ (q1 = q2 ∧ r1 < r2)) := by
  constructor
  · intro h
    rcases Nat.lt_trichotomy q1 q2 with hq | hq | hq
    · exact Or.inl hq
    · exact Or.inr ⟨hq, by subst hq; exact Nat.lt_of_add_lt_add_left h⟩
    · exfalso
      have hb : k * q2 + r2 < k * (q2 + 1) := by
        rw [Nat.mul_succ]
        exact Nat.add_lt_add_left h2 _
      have hc : k * (q2 + 1) ≤ k * q1 := Nat.mul_le_mul_left k hq
      have hlt : k * q1 + r1 < k * q1 := lt_of_lt_of_le (lt_trans h hb) hc
      exact absurd hlt (Nat.not_lt.mpr (Nat.le_add_right _ _))
  · intro h
    rcases h with hq | ⟨rfl, hr⟩
    · have ha : k * q1 + r1 < k * (q1 + 1) := by
        rw [Nat.mul_succ]
        exact Nat.add_lt_add_left h1 _
      have hb : k * (q1 + 1) ≤ k * q2 := Nat.mul_le_mul_left k hq
      exact lt_of_lt_of_le ha (le_trans hb (Nat.le_add_right _ _))
    · exact Nat.add_lt_add_left hr _

theorem nat_lt_iff_div_mod (K a b : Nat) (hK : 0 < K) :
    a < b ↔ (a / K < b / K ∨ (a / K = b / K ∧ a % K < b % K)) := by
  have h := mul_add_lt_iff K (a / K) (a % K) (b / K) (b % K)
    (Nat.mod_lt a hK) (Nat.mod_lt b hK)
  rwa [Nat.div_add_mod, Nat.div_add_mod] at h

theorem nat_eq_iff_div_mod (K a b : Nat) (hK : 0 < K) :
    a = b ↔ (a / K = b / K ∧ a % K = b % K) := by
  constructor
  · rintro rfl
    exact ⟨rfl, rfl⟩
  · rintro ⟨h1, h2⟩
    have ha := Nat.div_add_mod a K
    have hb := Nat.div_add_mod b K
    rw [← ha, ← hb, h1, h2]

theorem digitChar_lt_iff : ∀ x < 10, ∀ y < 10,
    (Nat.digitChar x < Nat.digitChar y ↔ x < y) := by decide

theorem digitChar_eq_iff : ∀ x < 10, ∀ y < 10,
    (Nat.digitChar x = Nat.digitChar y ↔ x = y) := by decide

theorem padNum_append_lt_iff :
    ∀ (w a b : Nat), a < 10 ^ w → b < 10 ^ w → ∀ (r s : List Char),
      ((padNum w a ++ r) < (padNum w b ++ s) ↔ (a < b ∨ (a = b ∧ r < s))) := by
  intro w
  induction w with
  | zero =>
    intro a b ha hb r s
    have ha0 : a = 0 := Nat.lt_one_iff.mp ha
    have hb0 : b = 0 := Nat.lt_one_iff.mp hb
    subst ha0
    subst hb0
    simp [padNum]
  | succ w ih =>
    intro a b ha hb r s
    have hKpos : 0 < 10 ^ w := Nat.pos_pow_of_pos w (by norm_num)
    have ha' : a < 10 ^ w * 10 := by rwa [pow_succ] at ha
    have hb' : b < 10 ^ w * 10 := by rwa [pow_succ] at hb
    have hda : a / 10 ^ w < 10 := Nat.div_lt_of_lt_mul ha'
    have hdb : b / 10 ^ w < 10 := Nat.div_lt_of_lt_mul hb'
    simp only [padNum, List.cons_append]
    rw [charList_cons_lt, digitChar_lt_iff _ hda _ hdb, digitChar_eq_iff _ hda _ hdb,
      ih (a % 10 ^ w) (b % 10 ^ w) (Nat.mod_lt a hKpos) (Nat.mod_lt b hKpos) r s,
      nat_lt_iff_div_mod (10 ^ w) a b hKpos, nat_eq_iff_div_mod (10 ^ w) a b hKpos]
    tauto

theorem padNum_lt_iff (w a b : Nat) (ha : a < 10 ^ w) (hb : b < 10 ^ w) :
    (padNum w a < padNum w b ↔ a < b) := by
  have h := padNum_append_lt_iff w a b ha hb [] []
  simp only [List.append_nil] at h
  rw [h]
  constructor
  · rintro (hlt | ⟨_, hnil⟩)
    · exact hlt
    · exact absurd hnil nil_not_lt_nil
  · exact Or.inl

theorem yearChars_eq_padNum (y : Nat) (h1 : 1000 ≤ y) (h2 : y ≤ 9999) :
    yearChars y = padNum 4 y := by
  have hq1 : 1 ≤ y / 1000 := Nat.one_le_div_iff (by norm_num) |>.mpr h1
  have hq9 : y / 1000 < 10 := Nat.div_lt_of_lt_mul (by omega)
  have hne : Nat.digitChar (y / 1000) ≠ '0' := by
    have hall : ∀ x, 1 ≤ x → x < 10 → Nat.digitChar x ≠ '0' := by decide
    exact hall _ hq1 hq9
  have h3 : (10 : Nat) ^ 3 = 1000 := by norm_num
  show (padNum 4 y).dropWhile (fun c => c == '0') = padNum 4 y
  simp only [padNum, h3, List.dropWhile_cons]
  rw [if_neg (by simpa using hne)]

theorem hourKey_lt_iff (d1 d2 : DateTime)
    (hb1 : hourFixedWidth d1) (hb2 : hourFixedWidth d2) :
    (hourKey d1 < hourKey d2 ↔ chronoLt d1 d2) := by
  obtain ⟨hy1l, hy1, hm1, hd1, hh1⟩ := hb1
  obtain ⟨hy2l, hy2, hm2, hd2, hh2⟩ := hb2
  have h4 : (10 : Nat) ^ 4 = 10000 := by norm_num
  have h2 : (10 : Nat) ^ 2 = 100 := by norm_num
  rw [String.lt_iff_toList_lt]
  have hkey : ∀ d : DateTime, (hourKey d).toList
      = yearChars d.year ++ '-' :: (padNum 2 d.month ++ '-' :: (padNum 2 d.day ++
        ' ' :: padNum 2 d.hour)) := fun d => rfl
  rw [hkey, hkey]
  rw [yearChars_eq_padNum d1.year hy1l hy1, yearChars_eq_padNum d2.year hy2l hy2]
  rw [padNum_append_lt_iff 4 _ _ (by omega) (by omega),
    charList_cons_lt,
    padNum_append_lt_iff 2 _ _ (by omega) (by omega),
    charList_cons_lt,
    padNum_append_lt_iff 2 _ _ (by omega) (by omega),
    charList_cons_lt,
    padNum_lt_iff 2 _ _ (by omega) (by omega)]
  simp only [lt_self_iff_false, false_or, true_and]
  rfl

theorem digit_val_le_nine (c : Char) (h : isDigit c = true) :
    c.toNat - '0'.toNat ≤ 9 := by
  have h' := of_decide_eq_true h
  obtain ⟨h1, h2⟩ := h'
  rw [Char.le_def, UInt32.le_def] at h2
  simp [BitVec.le_def] at h2
  have hb : c.toNat = c.val.toBitVec.toNat := rfl
  have h9 : ('0' : Char).toNat = 48 := rfl
  omega

theorem digitsVal_aux (cs : List Char) :
    ∀ a : Nat, (∀ c ∈ cs, isDigit c = true) →
      cs.foldl (fun a c => a * 10 + (c.toNat - '0'.toNat)) a < (a + 1) * 10 ^ cs.length := by
  induction cs with
  | nil =>
    intro a _
    simpa using Nat.lt_succ_self a
  | cons c rest ih =>
    intro a h
    have hv : c.toNat - '0'.toNat ≤ 9 :=
      digit_val_le_nine c (h c (List.mem_cons_self c rest))
    have hstep := ih (a * 10 + (c.toNat - '0'.toNat))
      (fun x hx => h x (List.mem_cons_of_mem c hx))
    simp only [List.foldl_cons, List.length_cons]
    calc rest.foldl (fun a c => a * 10 + (c.toNat - '0'.toNat))
          (a * 10 + (c.toNat - '0'.toNat))
        < (a * 10 + (c.toNat - '0'.toNat) + 1) * 10 ^ rest.length := hstep
      _ ≤ ((a + 1) * 10) * 10 ^ rest.length :=
          Nat.mul_le_mul_right _ (by omega)
      _ = (a + 1) * 10 ^ (rest.length + 1) := by ring

theorem digitsVal_lt (cs : List Char) (h : ∀ c ∈ cs, isDigit c = true) :
    digitsVal cs < 10 ^ cs.length := by
  have := digitsVal_aux cs 0 h
  simpa [digitsVal] using this

theorem daysInMonth_le (y m : Nat) : daysInMonth y m ≤ 31 := by
  unfold daysInMonth
  split_ifs <;> omega

theorem parse_guard {α : Type} (c : Prop) [Decidable c] (x : Option α) (d : α)
    (h : (if c then none else x) = some d) : ¬ c ∧ x = some d := by
  by_cases hc : c
  · rw [if_pos hc] at h
    exact absurd h (by simp)
  · rw [if_neg hc] at h
    exact ⟨hc, h⟩

/-- Every `DateTime` produced by `parseTimestamp` satisfies the
fixed-width bounds of `hourKey` (four-digit year, two-digit month, day
and hour). -/
theorem parseTimestamp_bounded (s : String) (d : DateTime)
    (h : parseTimestamp s = some d) : hourBounded d := by
  unfold parseTimestamp at h
  simp only [digitRun] at h
  obtain ⟨hy4, h⟩ := parse_guard _ _ _ h
  rw [Option.bind_eq_some] at h
  obtain ⟨r1, hr1, h⟩ := h
  obtain ⟨hmc, h⟩ := parse_guard _ _ _ h
  rw [Option.bind_eq_some] at h
  obtain ⟨r2, hr2, h⟩ := h
  obtain ⟨hdc, h⟩ := parse_guard _ _ _ h
  rw [Option.bind_eq_some] at h
  obtain ⟨r3, hr3, h⟩ := h
  obtain ⟨hhc, h⟩ := parse_guard _ _ _ h
  rw [Option.bind_eq_some] at h
  obtain ⟨r4, hr4, h⟩ := h
  obtain ⟨hmic, h⟩ := parse_guard _ _ _ h
  rw [Option.bind_eq_some] at h
  obtain ⟨r5, hr5, h⟩ := h
  obtain ⟨hsc, h⟩ := parse_guard _ _ _ h
  rw [Option.bind_eq_some] at h
  obtain ⟨r6, hr6, h⟩ := h
  obtain ⟨hfc, h⟩ := parse_guard _ _ _ h
  obtain ⟨hrest, h⟩ := parse_guard _ _ _ h
  obtain ⟨hy0, h⟩ := parse_guard _ _ _ h
  obtain ⟨hmo, h⟩ := parse_guard _ _ _ h
  obtain ⟨hday, h⟩ := parse_guard _ _ _ h
  obtain ⟨hhr, h⟩ := parse_guard _ _ _ h
  obtain ⟨hmin, h⟩ := parse_guard _ _ _ h
  obtain ⟨hsec, h⟩ := parse_guard _ _ _ h
  have hd := Option.some.inj h
  subst hd
  have hylen : (s.data.takeWhile isDigit).length = 4 := by
    by_contra hne
    exact hy4 hne
  have hylt : digitsVal (s.data.takeWhile isDigit) < 10 ^ 4 := by
    have := digitsVal_lt (s.data.takeWhile isDigit)
      (fun c hc => List.mem_takeWhile_imp hc)
    rwa [hylen] at this
  have h104 : (10 : Nat) ^ 4 = 10000 := by norm_num
  have hle := daysInMonth_le (digitsVal (s.data.takeWhile isDigit))
    (digitsVal (r1.takeWhile isDigit))
  unfold hourBounded
  dsimp only
  refine ⟨by omega, by omega, by omega, by omega⟩

/-- C9 counterexample: the year field of `strftime("%Y")` is not
zero-padded, so keys are not fixed-width on the parseable domain.  The
timestamps `0999-01-01 10:00:00,000` and `2024-01-01 10:00:00,000`
both parse, the first is chronologically earlier, yet its key
`"999-01-01 10"` compares lexicographically GREATER than
`"2024-01-01 10"` (and the two keys even have different lengths):
lexicographic order disagrees with chronological order. -/
theorem hourKey_not_chronological :
    parseTimestamp "0999-01-01 10:00:00,000" = some ⟨999, 1, 1, 10, 0, 0, 0⟩ ∧
    parseTimestamp "2024-01-01 10:00:00,000" = some ⟨2024, 1, 1, 10, 0, 0, 0⟩ ∧
    chronoLt ⟨999, 1, 1, 10, 0, 0, 0⟩ ⟨2024, 1, 1, 10, 0, 0, 0⟩ ∧
    hourKey ⟨999, 1, 1, 10, 0, 0, 0⟩ = "999-01-01 10" ∧
    hourKey ⟨2024, 1, 1, 10, 0, 0, 0⟩ = "2024-01-01 10" ∧
    (hourKey ⟨999, 1, 1, 10, 0, 0, 0⟩).length
      ≠ (hourKey ⟨2024, 1, 1, 10, 0, 0, 0⟩).length ∧
    ¬ hourKey ⟨999, 1, 1, 10, 0, 0, 0⟩ < hourKey ⟨2024, 1, 1, 10, 0, 0, 0⟩ ∧
    hourKey ⟨2024, 1, 1, 10, 0, 0, 0⟩ < hourKey ⟨999, 1, 1, 10, 0, 0, 0⟩ := by
  refine ⟨by decide, by decide, Or.inl (by norm_num), by decide, by decide, by decide,
    ?_, ?_⟩
  · intro hlt
    rw [String.lt_iff_toList_lt] at hlt
    cases hlt with
    | rel h => exact absurd h (by decide)
  · rw [String.lt_iff_toList_lt]
    exact List.Lex.rel (by decide)

/-- C9 (amended): for hour-bucket keys whose years are at least 1000 —
where the unpadded `%Y` still renders four digits and the key is
fixed-width — lexicographic string comparison agrees exactly with
chronological comparison of the underlying hours, so any bucket
sequence with ascending keys in that range is in true chronological
order; the snapshot's histogram (and its last-5-buckets tail) is
sorted by bucket key ascending; and every parseable timestamp yields
bounded components (years 1–9999, so years below 1000, for which the
agreement fails, are parseable). -/
theorem hourKey_lexicographic (d1 d2 : DateTime)
    (hb1 : hourFixedWidth d1) (hb2 : hourFixedWidth d2) :
    (hourKey d1 < hourKey d2 ↔ chronoLt d1 d2) ∧
    (∀ (st : Fail2banStats) (e : ℚ),
      ((get_summary st e).hourly_distribution).Sorted (fun p q => p.1 ≤ q.1) ∧
      (((get_summary st e).hourly_distribution).drop
          ((get_summary st e).hourly_distribution.length - 5)).Sorted
        (fun p q => p.1 ≤ q.1)) ∧
    (∀ l : List DateTime, (∀ d ∈ l, hourFixedWidth d) →
      (l.map hourKey).Sorted (fun a b => a ≤ b) → l.Sorted chronoLe) ∧
    (∀ (s : String) (d : DateTime), parseTimestamp s = some d → hourBounded d) := by
  refine ⟨hourKey_lt_iff d1 d2 hb1 hb2, ?_, ?_, fun s d h => parseTimestamp_bounded s d h⟩
  · intro st e
    refine ⟨sortByKeyAsc_sorted st.hourly_stats, ?_⟩
    exact (sortByKeyAsc_sorted st.hourly_stats).sublist (List.drop_sublist _ _)
  · intro l hl hsorted
    have hpair : l.Pairwise (fun a b => hourKey a ≤ hourKey b) :=
      List.pairwise_map.mp hsorted
    refine hpair.imp_of_mem ?_
    intro a b hamem hbmem hle
    have hnot : ¬ hourKey b < hourKey a := not_lt.mpr hle
    rw [hourKey_lt_iff b a (hl b hbmem) (hl a hamem)] at hnot
    unfold chronoLt at hnot
    unfold chronoLe chronoLt
    omega

/-- Witness for `hourKey_lexicographic`: two concrete buckets an hour
apart across a day boundary, with four-digit years, compare
lexicographically in chronological order. -/
theorem hourKey_lexicographic_witness :
    hourKey ⟨2024, 1, 1, 23, 59, 0, 0⟩ < hourKey ⟨2024, 1, 2, 0, 0, 0, 0⟩ := by
  have h := hourKey_lexicographic ⟨2024, 1, 1, 23, 59, 0, 0⟩ ⟨2024, 1, 2, 0, 0, 0, 0⟩
    (by exact ⟨by norm_num, by norm_num, by norm_num, by norm_num, by norm_num⟩)
    (by exact ⟨by norm_num, by norm_num, by norm_num, by norm_num, by norm_num⟩)
  refine h.1.mpr ?_
  unfold chronoLt
  simp

end Fail2ban
